import Mathlib

/-!
Verification of the perception-toolkit reconciliation core
(`src/elements/meaning-maker/meaning-maker.ts`, `src/artifacts/artifact-dealer.ts`)
as a shallow embedding in Lean 4.

Object identity: the Result Differ compares `PerceptionResult` objects by JS
reference identity (`Set` membership), never by structural equality.  We model an
object reference as a `Nat` (an abstract heap address); two results are "the same
logical result" iff their reference numbers are equal.
-/

namespace PerceptionToolkit

/-- Source `Marker` from `defs/marker.ts`: `{ type: string, value: string }`. -/
structure Marker where
  type : String
  value : String
deriving DecidableEq, Repr

/-- Source `DetectedImage` from `defs/detected-image.ts`: `{ id: string }`. -/
structure DetectedImage where
  id : String
deriving DecidableEq, Repr

/-- Source `GeoCoordinates`; the coordinates are opaque to the reconciliation core
(passed through to stores, never inspected), so we model them with `Int` fields. -/
structure GeoCoordinates where
  latitude : Int
  longitude : Int
deriving DecidableEq, Repr

/-- A target is a marker or a detected image (`Array<Marker | DetectedImage>`). -/
inductive Target where
  | marker (m : Marker)
  | image (i : DetectedImage)
deriving DecidableEq, Repr

/-- An `ARArtifact` object reference (abstract heap address). -/
abbrev ARArtifact := Nat

/-- A `PerceptionResult` object reference (abstract heap address); the differ
uses JS reference identity, modelled as equality of these references. -/
abbrev PerceptionResult := Nat

/-- A `DetectableImage` object reference (abstract heap address). -/
abbrev DetectableImage := Nat

/-- Source `PerceptionState` from `artifact-store.ts`; the optional arrays are
normalized (`request.markers || []`) to plain lists. -/
structure PerceptionState where
  markers : List Marker
  geo : Option GeoCoordinates
  images : List DetectedImage
deriving DecidableEq, Repr

/-! ### JS `Map` with string keys, as an insertion-ordered association list

A JS `Map` holds at most one entry per key; `set` updates an existing entry in
place (keeping its position) or appends a fresh entry, `delete` during `for..of`
iteration behaves like a filter.  We model it as an association list whose
reachable values have pairwise distinct keys. -/

/-- Model of `Map.get`: value of the first entry with the given key. -/
def mapGet? : List (String × α) → String → Option α
  | [], _ => none
  | p :: rest, k => if p.1 = k then some p.2 else mapGet? rest k

/-- Model of `Map.has`. -/
def mapHas (m : List (String × α)) (k : String) : Bool :=
  (mapGet? m k).isSome

/-- Model of `Map.set`: replace the first entry with the key in place, else append. -/
def mapSet : List (String × α) → String → α → List (String × α)
  | [], k, v => [(k, v)]
  | p :: rest, k, v => if p.1 = k then (k, v) :: rest else p :: mapSet rest k v

/-- Keys of the association list. -/
def mapKeys (m : List (String × α)) : List String := m.map (·.1)

/-! ### JS `Set`, as a duplicate-free list in insertion order

`new Set(xs)` iterates `xs`, keeping the first occurrence of each element;
spreading it back (`[...set]`) yields the deduplicated list in insertion order. -/

/-- Insert one element into a JS `Set` (no-op when already present). -/
def jsSetInsert [DecidableEq α] (s : List α) (a : α) : List α :=
  if a ∈ s then s else s ++ [a]

/-- Model of `[...new Set(xs)]`. -/
def jsSet [DecidableEq α] (xs : List α) : List α :=
  xs.foldl jsSetInsert []

/-! ### Content stores and the Store Aggregator (`artifact-dealer.ts`)

An `ArtifactStore` has two optional capabilities (`artifact-store.ts`); `none`
models a store that does not implement the method (`!artstore.getDetectableImages`).
A store method returns a promise; we model a settled promise as `Except ε`,
with `.error` for rejection. -/

structure ArtifactStore (ε : Type) where
  getDetectableImages : Option (PerceptionState → Except ε (List DetectableImage))
  findRelevantArtifacts : Option (PerceptionState → Except ε (List PerceptionResult))

/-- Modelled from the spec: the `flat` helper (`src/utils/flat.js` is not under
`src/`); §4.2 "concatenates all results in registration order": a depth-one
flatten of the per-store result arrays. -/
def flat (xss : List (List α)) : List α := xss.flatten

/-- One store's contribution to `predictPerceptionTargets`
(`artifact-dealer.ts` lines 34-39): skip the store when the capability is
absent, else invoke it. -/
def imagesContribution (ε : Type) (request : PerceptionState) (s : ArtifactStore ε) :
    Except ε (List DetectableImage) :=
  match s.getDetectableImages with
  | none => .ok []
  | some f => f request

/-- One store's contribution to `getPerceptionResults`
(`artifact-dealer.ts` lines 45-50). -/
def artifactsContribution (ε : Type) (context : PerceptionState) (s : ArtifactStore ε) :
    Except ε (List PerceptionResult) :=
  match s.findRelevantArtifacts with
  | none => .ok []
  | some f => f context

/-- Model of `Promise.all` over the per-store promises: the results array in store
order, or a rejection if any store rejects. -/
def promiseAll (ε : Type) (f : ArtifactStore ε → Except ε (List α)) :
    List (ArtifactStore ε) → Except ε (List (List α))
  | [] => .ok []
  | s :: rest =>
    match f s, promiseAll ε f rest with
    | .error e, _ => .error e
    | .ok _, .error e => .error e
    | .ok r, .ok rs => .ok (r :: rs)

/-- Source `ArtifactDealer` holds the registered stores, append-only. -/
structure ArtifactDealer (ε : Type) where
  artstores : List (ArtifactStore ε)

def ArtifactDealer.addArtifactStore (d : ArtifactDealer ε) (s : ArtifactStore ε) :
    ArtifactDealer ε :=
  ⟨d.artstores ++ [s]⟩

/-- Source `ArtifactDealer.predictPerceptionTargets`: fan out `getDetectableImages`
over every registered store, flatten. -/
def ArtifactDealer.predictPerceptionTargets (d : ArtifactDealer ε)
    (request : PerceptionState) : Except ε (List DetectableImage) :=
  match promiseAll ε (imagesContribution ε request) d.artstores with
  | .error e => .error e
  | .ok allStoreResults => .ok (flat allStoreResults)

/-- Source `ArtifactDealer.getPerceptionResults`: fan out `findRelevantArtifacts`
over every registered store, flatten. -/
def ArtifactDealer.getPerceptionResults (d : ArtifactDealer ε)
    (context : PerceptionState) : Except ε (List PerceptionResult) :=
  match promiseAll ε (artifactsContribution ε context) d.artstores with
  | .error e => .error e
  | .ok allStoreResults => .ok (flat allStoreResults)

/-! ### MeaningMaker (`meaning-maker.ts`)

The facade's mutable fields become an explicit state record.  `performance.now()`
is an external monotone clock; a tick receives its reading `now` as a parameter.
Timestamps are integer milliseconds. -/

/-- Modelled from the spec: `generateMarkerId` (`src/utils/generate-marker-id.ts`
is not under `src/`, only its test and callers are).  The spec says
"Identity key = `type + separator + value`" and the test pins
`generateMarkerId({type:'foo', value:'bar'}) = 'foo__bar'`, so the separator is
`"__"` and the key is plain concatenation. -/
def generateMarkerId (marker : Marker) : String :=
  marker.type ++ "__" ++ marker.value

/-- A `lastSeenMarkers` entry: `{ marker, timestamp }`. -/
structure SeenMarker where
  marker : Marker
  timestamp : Int
deriving DecidableEq, Repr

/-- A `lastSeenImages` entry: `{ image, timestamp }`. -/
structure SeenImage where
  image : DetectedImage
  timestamp : Int
deriving DecidableEq, Repr

/-- The mutable fields of a `MeaningMaker` instance.  `artstoreArtifacts` is the
content of the default `LocalArtifactStore` (`saveArtifacts` appends to it) and
`loaderCalls` counts invocations of the external `ArtifactLoader.fromUrl`. -/
structure MeaningMakerState where
  lastSeenTimeBuffer : Int
  lastSeenMarkers : List (String × SeenMarker)
  lastSeenImages : List (String × SeenImage)
  prevPerceptionResults : List PerceptionResult
  artifactsForUrl : List (String × List ARArtifact)
  artstoreArtifacts : List ARArtifact
  loaderCalls : Nat
deriving DecidableEq, Repr

/-- A fresh `MeaningMaker` (constructor defaults; `_lastSeenTimeBuffer = 2000`). -/
def initialState : MeaningMakerState :=
  { lastSeenTimeBuffer := 2000
    lastSeenMarkers := []
    lastSeenImages := []
    prevPerceptionResults := []
    artifactsForUrl := []
    artstoreArtifacts := []
    loaderCalls := 0 }

/-- A parsed WHATWG URL: we only need its serialization (`toString`, used as the
cache key) and its `origin`. -/
structure URLo where
  href : String
  origin : String
deriving DecidableEq, Repr

/-- Source `ShouldLoadArtifactsFromCallback = ((url: URL) => boolean) | string[]`. -/
inductive ShouldLoadArtifactsFromCallback where
  | callback (f : URLo → Bool)
  | origins (os : List String)

/-- Source `PerceptionStateChangeRequest`, optional arrays normalized to lists. -/
structure PerceptionStateChangeRequest where
  markers : List Marker
  geo : Option GeoCoordinates
  images : List DetectedImage
  shouldLoadArtifactsFrom : Option ShouldLoadArtifactsFromCallback

/-- The `PerceptionState` part of a request (what `predictPerceptionTargets`
receives). -/
def PerceptionStateChangeRequest.toPerceptionState
    (request : PerceptionStateChangeRequest) : PerceptionState :=
  { markers := request.markers, geo := request.geo, images := request.images }

/-- Source `PerceptionStateChangeResponse`. -/
structure PerceptionStateChangeResponse where
  found : List PerceptionResult
  lost : List PerceptionResult
  newTargets : List Target
  detectableImages : List DetectableImage
deriving DecidableEq, Repr

/-! #### Phase 1: update lastSeen times (`meaning-maker.ts` lines 142-157) -/

/-- Accumulator of the two update loops. -/
structure TickPresence where
  newTargets : List Target
  lastSeenMarkers : List (String × SeenMarker)
  lastSeenImages : List (String × SeenImage)
deriving DecidableEq, Repr

/-- Body of the marker loop (lines 144-150): a marker is new when its id is not
in `lastSeenMarkers`; its entry is then set (refreshed) with `timestamp = now`. -/
def markerStep (now : Int) (t : TickPresence) (marker : Marker) : TickPresence :=
  let markerId := generateMarkerId marker
  { t with
      newTargets :=
        if mapHas t.lastSeenMarkers markerId then t.newTargets
        else t.newTargets ++ [Target.marker marker]
      lastSeenMarkers := mapSet t.lastSeenMarkers markerId ⟨marker, now⟩ }

/-- Body of the image loop (lines 151-157).  NB the source's new-target check on
line 153 reads `this.lastSeenMarkers.has(imageId)` — the *marker* map — while
the entry is stored in `lastSeenImages`; we transcribe that faithfully. -/
def imageStep (now : Int) (t : TickPresence) (image : DetectedImage) : TickPresence :=
  let imageId := image.id
  { t with
      newTargets :=
        if mapHas t.lastSeenMarkers imageId then t.newTargets
        else t.newTargets ++ [Target.image image]
      lastSeenImages := mapSet t.lastSeenImages imageId ⟨image, now⟩ }

/-- Lines 140-157: both loops, markers first, accumulating `newTargets`. -/
def updateLastSeen (now : Int) (st : MeaningMakerState)
    (request : PerceptionStateChangeRequest) : TickPresence :=
  let t0 : TickPresence := ⟨[], st.lastSeenMarkers, st.lastSeenImages⟩
  let t1 := request.markers.foldl (markerStep now) t0
  request.images.foldl (imageStep now) t1

/-! #### Phase 2: expiry sweep (lines 159-169) -/

/-- Delete every entry with `now - timestamp > lastSeenTimeBuffer` from both
maps (deleting while iterating a JS `Map` visits every entry once: a filter). -/
def expireSweep (now buf : Int) (t : TickPresence) : TickPresence :=
  { t with
      lastSeenMarkers :=
        t.lastSeenMarkers.filter (fun p => !(decide (now - p.2.timestamp > buf)))
      lastSeenImages :=
        t.lastSeenImages.filter (fun p => !(decide (now - p.2.timestamp > buf))) }

/-- Phases 1+2: the presence tracker's state at the end of a tick (update the
lastSeen times for the batch, then run the expiry sweep). -/
def postSweep (now : Int) (st : MeaningMakerState)
    (request : PerceptionStateChangeRequest) : TickPresence :=
  expireSweep now st.lastSeenTimeBuffer (updateLastSeen now st request)

/-! #### Phase 3: URL-valued markers (lines 171-173, 213-223, 99-132) -/

/-- Source `MeaningMaker.loadArtifactsFromUrl` (lines 99-107): consult the
`artifactsForUrl` cache keyed by the URL string; on a miss invoke the external
loader (`artloader.fromUrl`, modelled by the `fromUrl` oracle), save the
artifacts into the default store and cache them.  A loader rejection propagates
after the loader call was counted. -/
def MeaningMaker.loadArtifactsFromUrl (fromUrl : String → Except ε (List ARArtifact))
    (st : MeaningMakerState) (url : URLo) :
    Except ε (List ARArtifact) × MeaningMakerState :=
  match mapGet? st.artifactsForUrl url.href with
  | some artifacts => (.ok artifacts, st)
  | none =>
    match fromUrl url.href with
    | .error e => (.error e, { st with loaderCalls := st.loaderCalls + 1 })
    | .ok artifacts =>
      (.ok artifacts,
        { st with
            loaderCalls := st.loaderCalls + 1
            artstoreArtifacts := st.artstoreArtifacts ++ artifacts
            artifactsForUrl := mapSet st.artifactsForUrl url.href artifacts })

/-- Lines 118-125: resolve the `shouldLoadArtifactsFrom` option to a predicate
(default: same origin as `window.location.origin`; a string list: origin
membership via `origins.find`). -/
def resolveShouldLoad (windowOrigin : String) :
    Option ShouldLoadArtifactsFromCallback → URLo → Bool
  | none, url => url.origin == windowOrigin
  | some (.callback f), url => f url
  | some (.origins os), url => (os.find? (fun o => o == url.origin)).isSome

/-- Source `MeaningMaker.loadArtifactsFromSupportedUrl` (lines 116-132). -/
def MeaningMaker.loadArtifactsFromSupportedUrl
    (fromUrl : String → Except ε (List ARArtifact)) (windowOrigin : String)
    (st : MeaningMakerState) (url : URLo)
    (shouldLoadArtifactsFrom : Option ShouldLoadArtifactsFromCallback) :
    Except ε (List ARArtifact) × MeaningMakerState :=
  if resolveShouldLoad windowOrigin shouldLoadArtifactsFrom url then
    MeaningMaker.loadArtifactsFromUrl fromUrl st url
  else
    (.ok [], st)

/-- Source `MeaningMaker.checkMarkerIsDynamic` (lines 213-223): `new URL(marker.value)`
is modelled by the external parser oracle `parseURL` (`none` = the constructor
throws).  The `try/catch` swallows both the parse failure (no state change) and
any rejection of the load (the state reached before the throw is kept). -/
def MeaningMaker.checkMarkerIsDynamic (parseURL : String → Option URLo)
    (fromUrl : String → Except ε (List ARArtifact)) (windowOrigin : String)
    (marker : Marker)
    (shouldLoadArtifactsFrom : Option ShouldLoadArtifactsFromCallback)
    (st : MeaningMakerState) : MeaningMakerState :=
  match parseURL marker.value with
  | none => st
  | some url =>
    (MeaningMaker.loadArtifactsFromSupportedUrl fromUrl windowOrigin st url
      shouldLoadArtifactsFrom).2

/-- Lines 171-173: `checkMarkerIsDynamic` over every request marker. -/
def urlStep (parseURL : String → Option URLo)
    (fromUrl : String → Except ε (List ARArtifact)) (windowOrigin : String)
    (request : PerceptionStateChangeRequest) (st : MeaningMakerState) :
    MeaningMakerState :=
  request.markers.foldl
    (fun s marker =>
      MeaningMaker.checkMarkerIsDynamic parseURL fromUrl windowOrigin marker
        request.shouldLoadArtifactsFrom s)
    st

/-! #### Phase 4: believed-present state and the tick (lines 176-203) -/

/-- Lines 176-180: the query state is built from the post-sweep maps' values
(the URL step does not touch the `lastSeen` maps). -/
def believedPresentState (geo : Option GeoCoordinates) (t : TickPresence) :
    PerceptionState :=
  { markers := t.lastSeenMarkers.map (fun p => p.2.marker)
    geo := geo
    images := t.lastSeenImages.map (fun p => p.2.image) }

/-- The `PerceptionState` handed to `artdealer.getPerceptionResults` on a tick:
presence update, then expiry sweep, then the map values. -/
def queriedState (now : Int) (st : MeaningMakerState)
    (request : PerceptionStateChangeRequest) : PerceptionState :=
  believedPresentState request.geo (postSweep now st request)

/-- Source `MeaningMaker.updatePerceptionState` (lines 139-203).  The returned pair is
the settled promise (`.error e` models the tick's promise rejecting with the
store's error) alongside the instance state after the call: mutations performed
before a throw persist, and `prevPerceptionResults` is replaced only on the
success path (line 193). -/
def MeaningMaker.updatePerceptionState (d : ArtifactDealer ε)
    (parseURL : String → Option URLo)
    (fromUrl : String → Except ε (List ARArtifact)) (windowOrigin : String)
    (now : Int) (st : MeaningMakerState)
    (request : PerceptionStateChangeRequest) :
    Except ε PerceptionStateChangeResponse × MeaningMakerState :=
  let t := postSweep now st request
  let st1 := { st with
                 lastSeenMarkers := t.lastSeenMarkers
                 lastSeenImages := t.lastSeenImages }
  let st2 := urlStep parseURL fromUrl windowOrigin request st1
  match d.getPerceptionResults (queriedState now st request) with
  | .error e => (.error e, st2)
  | .ok nearbyResults =>
    let uniqueNearbyResults := jsSet nearbyResults
    let found := uniqueNearbyResults.filter
      (fun a => decide (a ∉ st2.prevPerceptionResults))
    let lost := st2.prevPerceptionResults.filter
      (fun a => decide (a ∉ uniqueNearbyResults))
    let st3 := { st2 with prevPerceptionResults := uniqueNearbyResults }
    match d.predictPerceptionTargets request.toPerceptionState with
    | .error e => (.error e, st3)
    | .ok detectableImages =>
      (.ok { found := found
             lost := lost
             newTargets := t.newTargets
             detectableImages := detectableImages },
       st3)

/-! #### Well-formedness of the tracker maps

Reachable `Map`s have pairwise-distinct keys, and every entry is keyed by its
own target's identity (it was stored under `generateMarkerId(marker)` resp.
`image.id`). -/

/-- Well-formed `lastSeenMarkers` map. -/
def markersWF (m : List (String × SeenMarker)) : Prop :=
  (mapKeys m).Nodup ∧ ∀ p ∈ m, generateMarkerId p.2.marker = p.1

/-- Well-formed `lastSeenImages` map. -/
def imagesWF (m : List (String × SeenImage)) : Prop :=
  (mapKeys m).Nodup ∧ ∀ p ∈ m, p.2.image.id = p.1

/-- Does a `newTargets` element report a marker with identity key `k`? -/
def isMarkerKey (k : String) : Target → Bool
  | Target.marker m => generateMarkerId m == k
  | Target.image _ => false

/-! ## Lemmas -/

/-! ### JS `Map` lemmas -/

theorem mapGet?_mapSet_self (m : List (String × α)) (k : String) (v : α) :
    mapGet? (mapSet m k v) k = some v := by
  induction m with
  | nil => simp [mapSet, mapGet?]
  | cons p rest ih =>
    by_cases h : p.1 = k
    · simp [mapSet, h, mapGet?]
    · simp [mapSet, h, mapGet?, ih]

theorem mapGet?_mapSet_ne (m : List (String × α)) (k k' : String) (v : α)
    (h : k ≠ k') : mapGet? (mapSet m k v) k' = mapGet? m k' := by
  induction m with
  | nil => simp [mapSet, mapGet?, h]
  | cons p rest ih =>
    by_cases hp : p.1 = k
    · simp [mapSet, hp, mapGet?, h]
    · have hk : ¬ (k' = k) := fun hh => h hh.symm
      by_cases hp' : p.1 = k'
      · simp [mapSet, hp, mapGet?, hp', hk]
      · simp [mapSet, hp, mapGet?, hp', ih]

theorem mapHas_mapSet_self (m : List (String × α)) (k : String) (v : α) :
    mapHas (mapSet m k v) k = true := by
  simp [mapHas, mapGet?_mapSet_self]

theorem mapHas_mapSet_mono (m : List (String × α)) (k k' : String) (v : α)
    (h : mapHas m k' = true) : mapHas (mapSet m k v) k' = true := by
  by_cases hk : k = k'
  · subst hk; exact mapHas_mapSet_self m k v
  · simpa [mapHas, mapGet?_mapSet_ne m k k' v hk] using h

theorem mapHas_mapSet_ne (m : List (String × α)) (k k' : String) (v : α)
    (h : k ≠ k') : mapHas (mapSet m k v) k' = mapHas m k' := by
  simp [mapHas, mapGet?_mapSet_ne m k k' v h]

theorem mapKeys_mapSet (m : List (String × α)) (k : String) (v : α) :
    mapKeys (mapSet m k v) = mapKeys m ∨ mapKeys (mapSet m k v) = mapKeys m ++ [k] := by
  induction m with
  | nil => right; simp [mapSet, mapKeys]
  | cons p rest ih =>
    by_cases h : p.1 = k
    · left; simp [mapSet, h, mapKeys]
    · rcases ih with ih | ih
      · left; simp [mapSet, h, mapKeys] at ih ⊢; exact ih
      · right; simp [mapSet, h, mapKeys] at ih ⊢; exact ih

theorem mapKeys_nodup_mapSet (m : List (String × α)) (k : String) (v : α)
    (h : (mapKeys m).Nodup) : (mapKeys (mapSet m k v)).Nodup := by
  induction m with
  | nil => simp [mapSet, mapKeys]
  | cons p rest ih =>
    simp only [mapKeys, List.map_cons, List.nodup_cons] at h
    by_cases hp : p.1 = k
    · have hset : mapSet (p :: rest) k v = (k, v) :: rest := by simp [mapSet, hp]
      rw [hset]
      simp only [mapKeys, List.map_cons, List.nodup_cons]
      exact ⟨by rw [← hp]; exact h.1, h.2⟩
    · have hset : mapSet (p :: rest) k v = p :: mapSet rest k v := by simp [mapSet, hp]
      rw [hset]
      simp only [mapKeys, List.map_cons, List.nodup_cons]
      refine ⟨?_, ih h.2⟩
      rcases mapKeys_mapSet rest k v with hk | hk
      · simp only [mapKeys] at hk
        rw [hk]
        exact h.1
      · simp only [mapKeys] at hk
        rw [hk]
        intro hmem
        rcases List.mem_append.mp hmem with h1 | h1
        · exact h.1 h1
        · exact hp (by simpa using h1)

theorem mapGet?_eq_none_of_not_mem_keys (m : List (String × α)) (k : String)
    (h : k ∉ mapKeys m) : mapGet? m k = none := by
  induction m with
  | nil => rfl
  | cons p rest ih =>
    simp only [mapKeys, List.map_cons, List.mem_cons] at h
    push_neg at h
    have hpk : ¬ p.1 = k := fun hh => h.1 hh.symm
    simp [mapGet?, hpk, ih (by simpa [mapKeys] using h.2)]

theorem mapHas_of_mem_keys (m : List (String × α)) (k : String)
    (h : k ∈ mapKeys m) : mapHas m k = true := by
  induction m with
  | nil => simp [mapKeys] at h
  | cons p rest ih =>
    by_cases hp : p.1 = k
    · simp [mapHas, mapGet?, hp]
    · simp only [mapKeys, List.map_cons, List.mem_cons] at h
      rcases h with h | h
      · exact absurd h.symm hp
      · simpa [mapHas, mapGet?, hp] using ih h

/-- Membership of an entry whose key is found by `mapGet?`. -/
theorem mem_of_mapGet?_eq_some (m : List (String × α)) (k : String) (v : α)
    (h : mapGet? m k = some v) : (k, v) ∈ m := by
  induction m with
  | nil => simp [mapGet?] at h
  | cons p rest ih =>
    cases p with
    | mk k0 v0 =>
      by_cases hp : k0 = k
      · subst hp
        have hv : v0 = v := by simpa [mapGet?] using h
        subst hv
        exact List.mem_cons_self _ _
      · have h' : mapGet? rest k = some v := by simpa [mapGet?, hp] using h
        exact List.mem_cons_of_mem _ (ih h')

/-- Entries of `mapSet m k v` come from `m` or are the new entry. -/
theorem mem_mapSet (m : List (String × α)) (k : String) (v : α) (p : String × α)
    (h : p ∈ mapSet m k v) : p ∈ m ∨ p = (k, v) := by
  induction m with
  | nil => simpa [mapSet] using h
  | cons q rest ih =>
    by_cases hq : q.1 = k
    · rw [show mapSet (q :: rest) k v = (k, v) :: rest by simp [mapSet, hq]] at h
      rcases List.mem_cons.mp h with h | h
      · right; exact h
      · left; exact List.mem_cons_of_mem _ h
    · rw [show mapSet (q :: rest) k v = q :: mapSet rest k v by simp [mapSet, hq]] at h
      rcases List.mem_cons.mp h with h | h
      · left; rw [h]; exact List.mem_cons_self _ _
      · rcases ih h with h | h
        · left; exact List.mem_cons_of_mem _ h
        · right; exact h

/-- Filtering an association list with pairwise-distinct keys removes the unique
entry with key `k` when the predicate rejects it. -/
theorem mapGet?_filter_eq_none (m : List (String × α)) (k : String) (v : α)
    (q : String × α → Bool)
    (hnd : (mapKeys m).Nodup) (hget : mapGet? m k = some v) (hq : q (k, v) = false) :
    mapGet? (m.filter q) k = none := by
  induction m with
  | nil => simp [mapGet?] at hget
  | cons p rest ih =>
    simp only [mapKeys, List.map_cons, List.nodup_cons] at hnd
    by_cases hp : p.1 = k
    · have h2 : p.2 = v := by simpa [mapGet?, hp] using hget
      have hpk : p = (k, v) := by
        cases p
        simp only at hp h2
        simp [hp, h2]
      subst hpk
      rw [List.filter_cons, if_neg (by simp [hq])]
      apply mapGet?_eq_none_of_not_mem_keys
      intro hmem
      have : k ∈ List.map (fun x => x.1) rest := by
        simp only [mapKeys, List.mem_map] at hmem ⊢
        obtain ⟨x, hx, hxk⟩ := hmem
        exact ⟨x, List.mem_of_mem_filter hx, hxk⟩
      exact hnd.1 this
    · have hget' : mapGet? rest k = some v := by simpa [mapGet?, hp] using hget
      have hrec := ih hnd.2 hget'
      by_cases hqp : q p = true
      · rw [List.filter_cons, if_pos hqp]
        simp [mapGet?, hp, hrec]
      · rw [List.filter_cons, if_neg hqp]
        exact hrec

/-- Filtering preserves present entries that the predicate accepts. -/
theorem mapGet?_filter_eq_some (m : List (String × α)) (k : String) (v : α)
    (q : String × α → Bool)
    (hget : mapGet? m k = some v) (hq : q (k, v) = true) :
    mapGet? (m.filter q) k = some v := by
  induction m with
  | nil => simp [mapGet?] at hget
  | cons p rest ih =>
    by_cases hp : p.1 = k
    · have h2 : p.2 = v := by simpa [mapGet?, hp] using hget
      have hpk : p = (k, v) := by
        cases p
        simp only at hp h2
        simp [hp, h2]
      subst hpk
      rw [List.filter_cons, if_pos hq]
      simp [mapGet?]
    · have hget' : mapGet? rest k = some v := by simpa [mapGet?, hp] using hget
      by_cases hqp : q p = true
      · rw [List.filter_cons, if_pos hqp]
        simp [mapGet?, hp, ih hget']
      · rw [List.filter_cons, if_neg hqp]
        exact ih hget'

theorem mapKeys_nodup_filter (m : List (String × α)) (q : String × α → Bool)
    (h : (mapKeys m).Nodup) : (mapKeys (m.filter q)).Nodup := by
  have : mapKeys (m.filter q) = (m.filter q).map (·.1) := rfl
  rw [this]
  exact (List.Sublist.map _ (List.filter_sublist m)).nodup h

/-! ### JS `Set` lemmas -/

theorem mem_jsSetInsert [DecidableEq α] (s : List α) (a b : α) :
    b ∈ jsSetInsert s a ↔ b ∈ s ∨ b = a := by
  unfold jsSetInsert
  by_cases h : a ∈ s
  · simp only [if_pos h]
    constructor
    · exact Or.inl
    · rintro (hb | rfl)
      · exact hb
      · exact h
  · simp [if_neg h]

theorem mem_jsSet_aux [DecidableEq α] (xs : List α) (acc : List α) (b : α) :
    b ∈ xs.foldl jsSetInsert acc ↔ b ∈ acc ∨ b ∈ xs := by
  induction xs generalizing acc with
  | nil => simp
  | cons x rest ih =>
    simp only [List.foldl_cons, ih, mem_jsSetInsert, List.mem_cons]
    tauto

/-- The set `jsSet xs` preserves membership. -/
theorem mem_jsSet [DecidableEq α] (xs : List α) (b : α) :
    b ∈ jsSet xs ↔ b ∈ xs := by
  simp [jsSet, mem_jsSet_aux]

/-! ### Aggregator lemmas -/

theorem promiseAll_ok (ε : Type) (f : ArtifactStore ε → Except ε (List α))
    (g : ArtifactStore ε → List α) (stores : List (ArtifactStore ε))
    (h : ∀ s ∈ stores, f s = .ok (g s)) :
    promiseAll ε f stores = .ok (stores.map g) := by
  induction stores with
  | nil => rfl
  | cons s rest ih =>
    have hs : f s = .ok (g s) := h s (List.mem_cons_self s rest)
    have hrest := ih (fun s' hs' => h s' (List.mem_cons_of_mem s hs'))
    simp [promiseAll, hs, hrest]

/-- If some store's promise rejects, `Promise.all` does not resolve. -/
theorem promiseAll_error (ε : Type) (f : ArtifactStore ε → Except ε (List α))
    (stores : List (ArtifactStore ε)) (s : ArtifactStore ε) (e : ε)
    (hs : s ∈ stores) (hf : f s = .error e) :
    ∀ rs, promiseAll ε f stores ≠ .ok rs := by
  induction stores with
  | nil => simp at hs
  | cons s0 rest ih =>
    intro rs hok
    rcases List.mem_cons.mp hs with rfl | hmem
    · simp [promiseAll, hf] at hok
    · unfold promiseAll at hok
      cases hf0 : f s0 with
      | error e0 => simp [hf0] at hok
      | ok r0 =>
        cases hrest : promiseAll ε f rest with
        | error e1 => simp [hf0, hrest] at hok
        | ok rs1 => exact ih hmem rs1 hrest

/-! ### Presence tracker lemmas -/

theorem markerFold_images (now : Int) (ms : List Marker) (t : TickPresence) :
    (ms.foldl (markerStep now) t).lastSeenImages = t.lastSeenImages := by
  induction ms generalizing t with
  | nil => rfl
  | cons m rest ih => simpa [markerStep] using ih (markerStep now t m)

theorem imageFold_markers (now : Int) (is : List DetectedImage) (t : TickPresence) :
    (is.foldl (imageStep now) t).lastSeenMarkers = t.lastSeenMarkers := by
  induction is generalizing t with
  | nil => rfl
  | cons i rest ih => simpa [imageStep] using ih (imageStep now t i)

theorem markerFold_has_mono (now : Int) (ms : List Marker) (t : TickPresence)
    (k : String) (h : mapHas t.lastSeenMarkers k = true) :
    mapHas (ms.foldl (markerStep now) t).lastSeenMarkers k = true := by
  induction ms generalizing t with
  | nil => exact h
  | cons m rest ih =>
    exact ih (markerStep now t m) (mapHas_mapSet_mono _ _ _ _ h)

/-- Once an entry with key `k` carries `timestamp = now`, it still does after
processing more markers. -/
theorem markerFold_get_now_preserved (now : Int) (ms : List Marker)
    (t : TickPresence) (k : String)
    (h : ∃ sm, mapGet? t.lastSeenMarkers k = some sm ∧ sm.timestamp = now) :
    ∃ sm, mapGet? (ms.foldl (markerStep now) t).lastSeenMarkers k = some sm ∧
      sm.timestamp = now := by
  induction ms generalizing t with
  | nil => exact h
  | cons m rest ih =>
    apply ih (markerStep now t m)
    by_cases hk : generateMarkerId m = k
    · exact ⟨⟨m, now⟩, by simp [markerStep, hk, mapGet?_mapSet_self]⟩
    · obtain ⟨sm, hget, hts⟩ := h
      exact ⟨sm, by simpa [markerStep, mapGet?_mapSet_ne _ _ _ _ hk] using hget, hts⟩

/-- Every marker of the batch ends with an entry stamped `now`. -/
theorem markerFold_get_fresh (now : Int) (ms : List Marker) (t : TickPresence)
    (m : Marker) (hm : m ∈ ms) :
    ∃ sm, mapGet? (ms.foldl (markerStep now) t).lastSeenMarkers
        (generateMarkerId m) = some sm ∧ sm.timestamp = now := by
  induction ms generalizing t with
  | nil => simp at hm
  | cons m0 rest ih =>
    rcases List.mem_cons.mp hm with rfl | hmem
    · rw [List.foldl_cons]
      apply markerFold_get_now_preserved
      exact ⟨⟨m, now⟩, by simp [markerStep, mapGet?_mapSet_self]⟩
    · exact ih (markerStep now t m0) hmem

/-- Keys not named by any processed marker keep their entry unchanged. -/
theorem markerFold_get_untouched (now : Int) (ms : List Marker) (t : TickPresence)
    (k : String) (h : ∀ m ∈ ms, generateMarkerId m ≠ k) :
    mapGet? (ms.foldl (markerStep now) t).lastSeenMarkers k =
      mapGet? t.lastSeenMarkers k := by
  induction ms generalizing t with
  | nil => rfl
  | cons m rest ih =>
    have hstep : mapGet? (markerStep now t m).lastSeenMarkers k =
        mapGet? t.lastSeenMarkers k := by
      simpa [markerStep] using
        mapGet?_mapSet_ne t.lastSeenMarkers (generateMarkerId m) k ⟨m, now⟩
          (h m (List.mem_cons_self m rest))
    rw [List.foldl_cons, ih (markerStep now t m)
      (fun m' hm' => h m' (List.mem_cons_of_mem m hm')), hstep]

theorem imageFold_get_now_preserved (now : Int) (is : List DetectedImage)
    (t : TickPresence) (k : String)
    (h : ∃ si, mapGet? t.lastSeenImages k = some si ∧ si.timestamp = now) :
    ∃ si, mapGet? (is.foldl (imageStep now) t).lastSeenImages k = some si ∧
      si.timestamp = now := by
  induction is generalizing t with
  | nil => exact h
  | cons i rest ih =>
    apply ih (imageStep now t i)
    by_cases hk : i.id = k
    · exact ⟨⟨i, now⟩, by simp [imageStep, hk, mapGet?_mapSet_self]⟩
    · obtain ⟨si, hget, hts⟩ := h
      exact ⟨si, by simpa [imageStep, mapGet?_mapSet_ne _ _ _ _ hk] using hget, hts⟩

theorem imageFold_get_fresh (now : Int) (is : List DetectedImage)
    (t : TickPresence) (i : DetectedImage) (hi : i ∈ is) :
    ∃ si, mapGet? (is.foldl (imageStep now) t).lastSeenImages i.id = some si ∧
      si.timestamp = now := by
  induction is generalizing t with
  | nil => simp at hi
  | cons i0 rest ih =>
    rcases List.mem_cons.mp hi with rfl | hmem
    · rw [List.foldl_cons]
      apply imageFold_get_now_preserved
      exact ⟨⟨i, now⟩, by simp [imageStep, mapGet?_mapSet_self]⟩
    · exact ih (imageStep now t i0) hmem

theorem imageFold_get_untouched (now : Int) (is : List DetectedImage)
    (t : TickPresence) (k : String) (h : ∀ i ∈ is, i.id ≠ k) :
    mapGet? (is.foldl (imageStep now) t).lastSeenImages k =
      mapGet? t.lastSeenImages k := by
  induction is generalizing t with
  | nil => rfl
  | cons i rest ih =>
    have hstep : mapGet? (imageStep now t i).lastSeenImages k =
        mapGet? t.lastSeenImages k := by
      simpa [imageStep] using
        mapGet?_mapSet_ne t.lastSeenImages i.id k ⟨i, now⟩
          (h i (List.mem_cons_self i rest))
    rw [List.foldl_cons, ih (imageStep now t i)
      (fun i' hi' => h i' (List.mem_cons_of_mem i hi')), hstep]

/-! ### Well-formedness preservation -/

theorem markersWF_mapSet (m : List (String × SeenMarker)) (k : String)
    (v : SeenMarker) (h : markersWF m) (hv : generateMarkerId v.marker = k) :
    markersWF (mapSet m k v) := by
  refine ⟨mapKeys_nodup_mapSet m k v h.1, fun p hp => ?_⟩
  rcases mem_mapSet m k v p hp with hp' | hp'
  · exact h.2 p hp'
  · rw [hp']; exact hv

theorem imagesWF_mapSet (m : List (String × SeenImage)) (k : String)
    (v : SeenImage) (h : imagesWF m) (hv : v.image.id = k) :
    imagesWF (mapSet m k v) := by
  refine ⟨mapKeys_nodup_mapSet m k v h.1, fun p hp => ?_⟩
  rcases mem_mapSet m k v p hp with hp' | hp'
  · exact h.2 p hp'
  · rw [hp']; exact hv

theorem markersWF_filter (m : List (String × SeenMarker)) (q : String × SeenMarker → Bool)
    (h : markersWF m) : markersWF (m.filter q) :=
  ⟨mapKeys_nodup_filter m q h.1, fun p hp => h.2 p (List.mem_of_mem_filter hp)⟩

theorem imagesWF_filter (m : List (String × SeenImage)) (q : String × SeenImage → Bool)
    (h : imagesWF m) : imagesWF (m.filter q) :=
  ⟨mapKeys_nodup_filter m q h.1, fun p hp => h.2 p (List.mem_of_mem_filter hp)⟩

theorem markerFold_wf (now : Int) (ms : List Marker) (t : TickPresence)
    (h : markersWF t.lastSeenMarkers) :
    markersWF (ms.foldl (markerStep now) t).lastSeenMarkers := by
  induction ms generalizing t with
  | nil => exact h
  | cons m rest ih =>
    apply ih (markerStep now t m)
    simpa [markerStep] using
      markersWF_mapSet t.lastSeenMarkers (generateMarkerId m) ⟨m, now⟩ h rfl

theorem imageFold_wf (now : Int) (is : List DetectedImage) (t : TickPresence)
    (h : imagesWF t.lastSeenImages) :
    imagesWF (is.foldl (imageStep now) t).lastSeenImages := by
  induction is generalizing t with
  | nil => exact h
  | cons i rest ih =>
    apply ih (imageStep now t i)
    simpa [imageStep] using
      imagesWF_mapSet t.lastSeenImages i.id ⟨i, now⟩ h rfl

/-- The whole tick pipeline preserves marker-map well-formedness. -/
theorem postSweep_markersWF (now : Int) (st : MeaningMakerState)
    (request : PerceptionStateChangeRequest) (h : markersWF st.lastSeenMarkers) :
    markersWF (postSweep now st request).lastSeenMarkers := by
  unfold postSweep expireSweep updateLastSeen
  apply markersWF_filter
  rw [imageFold_markers]
  exact markerFold_wf now request.markers _ h

theorem postSweep_imagesWF (now : Int) (st : MeaningMakerState)
    (request : PerceptionStateChangeRequest) (h : imagesWF st.lastSeenImages) :
    imagesWF (postSweep now st request).lastSeenImages := by
  unfold postSweep expireSweep updateLastSeen
  apply imagesWF_filter
  apply imageFold_wf
  rw [markerFold_images]
  exact h

/-! ### URL-step frame lemmas: the URL side-loading touches only the loader
cache, the default store and the call counter. -/

theorem loadArtifactsFromUrl_frame (fromUrl : String → Except ε (List ARArtifact))
    (st : MeaningMakerState) (url : URLo) :
    (MeaningMaker.loadArtifactsFromUrl fromUrl st url).2.prevPerceptionResults =
        st.prevPerceptionResults ∧
    (MeaningMaker.loadArtifactsFromUrl fromUrl st url).2.lastSeenMarkers =
        st.lastSeenMarkers ∧
    (MeaningMaker.loadArtifactsFromUrl fromUrl st url).2.lastSeenImages =
        st.lastSeenImages ∧
    (MeaningMaker.loadArtifactsFromUrl fromUrl st url).2.lastSeenTimeBuffer =
        st.lastSeenTimeBuffer := by
  unfold MeaningMaker.loadArtifactsFromUrl
  cases mapGet? st.artifactsForUrl url.href with
  | some artifacts => exact ⟨rfl, rfl, rfl, rfl⟩
  | none =>
    cases fromUrl url.href with
    | error e => exact ⟨rfl, rfl, rfl, rfl⟩
    | ok artifacts => exact ⟨rfl, rfl, rfl, rfl⟩

theorem checkMarkerIsDynamic_frame (parseURL : String → Option URLo)
    (fromUrl : String → Except ε (List ARArtifact)) (windowOrigin : String)
    (marker : Marker) (should : Option ShouldLoadArtifactsFromCallback)
    (st : MeaningMakerState) :
    (MeaningMaker.checkMarkerIsDynamic parseURL fromUrl windowOrigin marker should
        st).prevPerceptionResults = st.prevPerceptionResults ∧
    (MeaningMaker.checkMarkerIsDynamic parseURL fromUrl windowOrigin marker should
        st).lastSeenMarkers = st.lastSeenMarkers ∧
    (MeaningMaker.checkMarkerIsDynamic parseURL fromUrl windowOrigin marker should
        st).lastSeenImages = st.lastSeenImages ∧
    (MeaningMaker.checkMarkerIsDynamic parseURL fromUrl windowOrigin marker should
        st).lastSeenTimeBuffer = st.lastSeenTimeBuffer := by
  unfold MeaningMaker.checkMarkerIsDynamic
  cases parseURL marker.value with
  | none => exact ⟨rfl, rfl, rfl, rfl⟩
  | some url =>
    unfold MeaningMaker.loadArtifactsFromSupportedUrl
    by_cases h : resolveShouldLoad windowOrigin should url = true
    · simpa [h] using loadArtifactsFromUrl_frame fromUrl st url
    · simp [h]

theorem urlFold_frame (parseURL : String → Option URLo)
    (fromUrl : String → Except ε (List ARArtifact)) (windowOrigin : String)
    (should : Option ShouldLoadArtifactsFromCallback) (ms : List Marker)
    (st : MeaningMakerState) :
    (ms.foldl
        (fun s marker =>
          MeaningMaker.checkMarkerIsDynamic parseURL fromUrl windowOrigin marker
            should s)
        st).prevPerceptionResults = st.prevPerceptionResults ∧
    (ms.foldl
        (fun s marker =>
          MeaningMaker.checkMarkerIsDynamic parseURL fromUrl windowOrigin marker
            should s)
        st).lastSeenMarkers = st.lastSeenMarkers ∧
    (ms.foldl
        (fun s marker =>
          MeaningMaker.checkMarkerIsDynamic parseURL fromUrl windowOrigin marker
            should s)
        st).lastSeenImages = st.lastSeenImages ∧
    (ms.foldl
        (fun s marker =>
          MeaningMaker.checkMarkerIsDynamic parseURL fromUrl windowOrigin marker
            should s)
        st).lastSeenTimeBuffer = st.lastSeenTimeBuffer := by
  induction ms generalizing st with
  | nil => exact ⟨rfl, rfl, rfl, rfl⟩
  | cons m rest ih =>
    rw [List.foldl_cons]
    obtain ⟨h1, h2, h3, h4⟩ :=
      ih (MeaningMaker.checkMarkerIsDynamic parseURL fromUrl windowOrigin m should st)
    obtain ⟨g1, g2, g3, g4⟩ :=
      checkMarkerIsDynamic_frame parseURL fromUrl windowOrigin m should st
    exact ⟨h1.trans g1, h2.trans g2, h3.trans g3, h4.trans g4⟩

theorem urlStep_frame (parseURL : String → Option URLo)
    (fromUrl : String → Except ε (List ARArtifact)) (windowOrigin : String)
    (request : PerceptionStateChangeRequest) (st : MeaningMakerState) :
    (urlStep parseURL fromUrl windowOrigin request st).prevPerceptionResults =
        st.prevPerceptionResults ∧
    (urlStep parseURL fromUrl windowOrigin request st).lastSeenMarkers =
        st.lastSeenMarkers ∧
    (urlStep parseURL fromUrl windowOrigin request st).lastSeenImages =
        st.lastSeenImages ∧
    (urlStep parseURL fromUrl windowOrigin request st).lastSeenTimeBuffer =
        st.lastSeenTimeBuffer := by
  unfold urlStep
  exact urlFold_frame parseURL fromUrl windowOrigin request.shouldLoadArtifactsFrom
    request.markers st

/-! ### Counting lemmas for duplicate suppression -/

theorem countP_key_eq_one (m : List (String × α)) (k : String)
    (hnd : (mapKeys m).Nodup) (hhas : mapHas m k = true) :
    m.countP (fun p => p.1 == k) = 1 := by
  induction m with
  | nil => simp [mapHas, mapGet?] at hhas
  | cons p rest ih =>
    simp only [mapKeys, List.map_cons, List.nodup_cons] at hnd
    by_cases hp : p.1 = k
    · have hzero : rest.countP (fun q => q.1 == k) = 0 := by
        apply List.countP_eq_zero.mpr
        intro q hq hqk
        apply hnd.1
        rw [hp]
        have : q.1 = k := by simpa using hqk
        rw [← this]
        exact List.mem_map.mpr ⟨q, hq, rfl⟩
      rw [List.countP_cons, hzero, if_pos (by simpa using hp)]
    · have hhas' : mapHas rest k = true := by simpa [mapHas, mapGet?, hp] using hhas
      rw [List.countP_cons, ih hnd.2 hhas', if_neg (by simpa using hp)]

theorem markerFold_countP (now : Int) (ms : List Marker) (t : TickPresence)
    (k : String) :
    ((ms.foldl (markerStep now) t).newTargets).countP (isMarkerKey k) ≤
      t.newTargets.countP (isMarkerKey k) +
        (if mapHas t.lastSeenMarkers k then 0 else 1) := by
  induction ms generalizing t with
  | nil =>
    by_cases h : mapHas t.lastSeenMarkers k = true <;> simp [h]
  | cons m rest ih =>
    rw [List.foldl_cons]
    have hih := ih (markerStep now t m)
    by_cases hk : generateMarkerId m = k
    · subst hk
      by_cases hhas : mapHas t.lastSeenMarkers (generateMarkerId m) = true
      · have hnt : (markerStep now t m).newTargets = t.newTargets := by
          simp [markerStep, hhas]
        have hhs : mapHas (markerStep now t m).lastSeenMarkers
            (generateMarkerId m) = true := by
          simp only [markerStep]
          exact mapHas_mapSet_self _ _ _
        rw [hnt, hhs] at hih
        simpa [hhas] using hih
      · have hhas' : mapHas t.lastSeenMarkers (generateMarkerId m) = false := by
          simpa using hhas
        have hnt : (markerStep now t m).newTargets =
            t.newTargets ++ [Target.marker m] := by
          simp [markerStep, hhas']
        have hhs : mapHas (markerStep now t m).lastSeenMarkers
            (generateMarkerId m) = true := by
          simp only [markerStep]
          exact mapHas_mapSet_self _ _ _
        rw [hnt, hhs] at hih
        rw [List.countP_append] at hih
        simp only [List.countP_cons, List.countP_nil, isMarkerKey, beq_self_eq_true,
          if_pos, if_true] at hih
        simp only [hhas', if_pos, if_neg, Bool.false_eq_true, if_false]
        omega
    · have hnt : (markerStep now t m).newTargets.countP (isMarkerKey k) =
          t.newTargets.countP (isMarkerKey k) := by
        by_cases hh : mapHas t.lastSeenMarkers (generateMarkerId m) = true
        · simp [markerStep, hh]
        · have hh' : mapHas t.lastSeenMarkers (generateMarkerId m) = false := by
            simpa using hh
          simp [markerStep, hh', List.countP_append, List.countP_cons, isMarkerKey, hk]
      have hhh : mapHas (markerStep now t m).lastSeenMarkers k =
          mapHas t.lastSeenMarkers k := by
        simp only [markerStep]
        exact mapHas_mapSet_ne _ _ _ _ hk
      rw [hnt, hhh] at hih
      exact hih

theorem imageFold_countP (now : Int) (is : List DetectedImage) (t : TickPresence)
    (k : String) :
    ((is.foldl (imageStep now) t).newTargets).countP (isMarkerKey k) =
      t.newTargets.countP (isMarkerKey k) := by
  induction is generalizing t with
  | nil => rfl
  | cons i rest ih =>
    rw [List.foldl_cons, ih (imageStep now t i)]
    by_cases hh : mapHas t.lastSeenMarkers i.id = true
    · simp [imageStep, hh]
    · have hh' : mapHas t.lastSeenMarkers i.id = false := by simpa using hh
      simp [imageStep, hh', List.countP_append, List.countP_cons, isMarkerKey]

/-! ## Claims -/

/-- C5: for a single `updatePerceptionState` call that resolves, the returned
`found` and `lost` lists are disjoint: `found` is drawn from the current result
set (minus the previous set) and `lost` from the previous set minus the current
set, so no `PerceptionResult` reference appears in both. -/
theorem found_lost_disjoint (ε : Type) (d : ArtifactDealer ε)
    (parseURL : String → Option URLo) (fromUrl : String → Except ε (List ARArtifact))
    (windowOrigin : String) (now : Int) (st : MeaningMakerState)
    (request : PerceptionStateChangeRequest) (resp : PerceptionStateChangeResponse)
    (hok : (MeaningMaker.updatePerceptionState d parseURL fromUrl windowOrigin now st
        request).1 = .ok resp) :
    ∀ a ∈ resp.found, a ∉ resp.lost := by
  intro a hfound hlost
  cases hres : d.getPerceptionResults (queriedState now st request) with
  | error e =>
    simp only [MeaningMaker.updatePerceptionState, hres] at hok
    exact Except.noConfusion hok
  | ok nearby =>
    cases hpred : d.predictPerceptionTargets request.toPerceptionState with
    | error e =>
      simp only [MeaningMaker.updatePerceptionState, hres, hpred] at hok
      exact Except.noConfusion hok
    | ok di =>
      simp only [MeaningMaker.updatePerceptionState, hres, hpred,
        Except.ok.injEq] at hok
      subst hok
      simp only [List.mem_filter, decide_eq_true_eq] at hfound hlost
      exact hlost.2 hfound.1

/-- C5 witness: a concrete tick whose `found` contains `7`; `7` is then not in
its `lost`. -/
theorem found_lost_disjoint_witness :
    (7 : PerceptionResult) ∉ (PerceptionStateChangeResponse.mk [7] [] [] []).lost :=
  found_lost_disjoint Unit ⟨[⟨none, some (fun _ => .ok [7])⟩]⟩ (fun _ => none)
    (fun _ => .ok []) "" 0 initialState ⟨[], none, [], none⟩
    (PerceptionStateChangeResponse.mk [7] [] [] []) (by rfl) 7 (by simp)

/-- C7: `loadArtifactsFromUrl` triggers indexing at most once per URL string:
a first call on a cache miss invokes the loader (call counter increments) and
caches the result under the URL string; every call that finds the URL string
cached returns the cached list and leaves the state — including the call
counter — untouched. -/
theorem loadArtifactsFromUrl_caches (ε : Type)
    (fromUrl : String → Except ε (List ARArtifact)) (st : MeaningMakerState)
    (url : URLo) (arts : List ARArtifact)
    (hmiss : mapGet? st.artifactsForUrl url.href = none)
    (hok : fromUrl url.href = .ok arts) :
    (MeaningMaker.loadArtifactsFromUrl fromUrl st url).1 = .ok arts ∧
    (MeaningMaker.loadArtifactsFromUrl fromUrl st url).2.loaderCalls =
        st.loaderCalls + 1 ∧
    mapGet? (MeaningMaker.loadArtifactsFromUrl fromUrl st url).2.artifactsForUrl
        url.href = some arts ∧
    ∀ (st' : MeaningMakerState) (cached : List ARArtifact),
      mapGet? st'.artifactsForUrl url.href = some cached →
      MeaningMaker.loadArtifactsFromUrl fromUrl st' url = (.ok cached, st') := by
  refine ⟨?_, ?_, ?_, ?_⟩
  · simp [MeaningMaker.loadArtifactsFromUrl, hmiss, hok]
  · simp [MeaningMaker.loadArtifactsFromUrl, hmiss, hok]
  · simp [MeaningMaker.loadArtifactsFromUrl, hmiss, hok, mapGet?_mapSet_self]
  · intro st' cached hcache
    simp [MeaningMaker.loadArtifactsFromUrl, hcache]

/-- C7 witness: a concrete first load invokes and caches; the second load on
the resulting state returns the cache unchanged. -/
theorem loadArtifactsFromUrl_caches_witness :
    (MeaningMaker.loadArtifactsFromUrl (ε := Unit) (fun _ => .ok [3])
        initialState ⟨"https://e.x/a", "https://e.x"⟩).1 = .ok [3] ∧
    MeaningMaker.loadArtifactsFromUrl (ε := Unit) (fun _ => .ok [3])
        (MeaningMaker.loadArtifactsFromUrl (ε := Unit) (fun _ => .ok [3])
          initialState ⟨"https://e.x/a", "https://e.x"⟩).2
        ⟨"https://e.x/a", "https://e.x"⟩ =
      (.ok [3],
        (MeaningMaker.loadArtifactsFromUrl (ε := Unit) (fun _ => .ok [3])
          initialState ⟨"https://e.x/a", "https://e.x"⟩).2) := by
  have h := loadArtifactsFromUrl_caches Unit (fun _ => .ok [3]) initialState
    ⟨"https://e.x/a", "https://e.x"⟩ [3] (by rfl) (by rfl)
  exact ⟨h.1, h.2.2.2 _ [3] h.2.2.1⟩

/-- C9: a marker whose value does not parse as an absolute URL is skipped
silently by `checkMarkerIsDynamic` (the `try/catch` recovers locally): the
state is unchanged — in particular no artifact loading happens for it — and a
request all of whose marker values are unparseable leaves the whole URL step as
the identity, so the tick's remaining steps proceed unchanged. -/
theorem unparseable_marker_skipped (ε : Type) (parseURL : String → Option URLo)
    (fromUrl : String → Except ε (List ARArtifact)) (windowOrigin : String)
    (marker : Marker) (should : Option ShouldLoadArtifactsFromCallback)
    (st : MeaningMakerState) (h : parseURL marker.value = none) :
    MeaningMaker.checkMarkerIsDynamic parseURL fromUrl windowOrigin marker should
        st = st ∧
    ∀ (request : PerceptionStateChangeRequest) (st' : MeaningMakerState),
      (∀ m ∈ request.markers, parseURL m.value = none) →
      urlStep parseURL fromUrl windowOrigin request st' = st' := by
  constructor
  · simp [MeaningMaker.checkMarkerIsDynamic, h]
  · intro request st' hall
    have hfold : ∀ (ms : List Marker), (∀ m ∈ ms, parseURL m.value = none) →
        ∀ (s : MeaningMakerState),
        ms.foldl
          (fun s marker =>
            MeaningMaker.checkMarkerIsDynamic parseURL fromUrl windowOrigin marker
              request.shouldLoadArtifactsFrom s)
          s = s := by
      intro ms
      induction ms with
      | nil => intro _ s; rfl
      | cons m rest ih =>
        intro hms s
        rw [List.foldl_cons]
        have hm : MeaningMaker.checkMarkerIsDynamic parseURL fromUrl windowOrigin m
            request.shouldLoadArtifactsFrom s = s := by
          simp [MeaningMaker.checkMarkerIsDynamic,
            hms m (List.mem_cons_self m rest)]
        rw [hm]
        exact ih (fun m' hm' => hms m' (List.mem_cons_of_mem m hm')) s
    exact hfold request.markers hall st'

/-- C9 witness: with a parser that rejects everything, a concrete marker is
skipped and a concrete request's URL step is the identity. -/
theorem unparseable_marker_skipped_witness :
    MeaningMaker.checkMarkerIsDynamic (ε := Unit) (fun _ => none) (fun _ => .ok [])
        "" ⟨"qr", "not a url"⟩ none initialState = initialState ∧
    urlStep (ε := Unit) (fun _ => none) (fun _ => .ok []) ""
        ⟨[⟨"qr", "not a url"⟩], none, [], none⟩ initialState = initialState := by
  have h := unparseable_marker_skipped Unit (fun _ => none) (fun _ => .ok []) ""
    ⟨"qr", "not a url"⟩ none initialState (by rfl)
  exact ⟨h.1, h.2 ⟨[⟨"qr", "not a url"⟩], none, [], none⟩ initialState
    (by intro m _; rfl)⟩

/-- C8 counterexample: the identity key is plain concatenation, so it is NOT
injective on all markers: two markers differing in both type and value collide
when the type contains the separator. -/
theorem generateMarkerId_collision :
    Marker.mk "a__b" "c" ≠ Marker.mk "a" "b__c" ∧
    generateMarkerId ⟨"a__b", "c"⟩ = generateMarkerId ⟨"a", "b__c"⟩ :=
  ⟨by decide, rfl⟩

/-- C8 (amended): the key function is injective on markers that agree in type
or agree in value: same type with different values, or same value with
different types, always yields different keys — in particular a value
containing the separator cannot collide with another value of the same type. -/
theorem generateMarkerId_injective_on_shared_component (m1 m2 : Marker)
    (hagree : m1.type = m2.type ∨ m1.value = m2.value) (hne : m1 ≠ m2) :
    generateMarkerId m1 ≠ generateMarkerId m2 := by
  intro heq
  unfold generateMarkerId at heq
  have hd := congrArg String.data heq
  rw [String.data_append, String.data_append, String.data_append,
    String.data_append] at hd
  rcases hagree with h | h
  · apply hne
    rw [h] at hd
    have hval : m1.value.data = m2.value.data := List.append_cancel_left hd
    have : m1.value = m2.value := by
      cases hv1 : m1.value
      cases hv2 : m2.value
      rw [hv1, hv2] at hval
      simp_all
    cases m1
    cases m2
    simp_all
  · apply hne
    rw [h] at hd
    have htyp : m1.type.data ++ "__".data = m2.type.data ++ "__".data :=
      List.append_cancel_right hd
    have htyp' : m1.type.data = m2.type.data := List.append_cancel_right htyp
    have : m1.type = m2.type := by
      cases ht1 : m1.type
      cases ht2 : m2.type
      rw [ht1, ht2] at htyp'
      simp_all
    cases m1
    cases m2
    simp_all

/-- C8 witness: two markers of equal type and different values get different
keys. -/
theorem generateMarkerId_injective_witness :
    generateMarkerId ⟨"foo", "bar"⟩ ≠ generateMarkerId ⟨"foo", "baz"⟩ :=
  generateMarkerId_injective_on_shared_component ⟨"foo", "bar"⟩ ⟨"foo", "baz"⟩
    (Or.inl rfl) (by decide)

/-! ### Further helper lemmas -/

theorem markerFold_keys_nodup (now : Int) (ms : List Marker) (t : TickPresence)
    (h : (mapKeys t.lastSeenMarkers).Nodup) :
    (mapKeys (ms.foldl (markerStep now) t).lastSeenMarkers).Nodup := by
  induction ms generalizing t with
  | nil => exact h
  | cons m rest ih =>
    apply ih (markerStep now t m)
    simpa [markerStep] using
      mapKeys_nodup_mapSet t.lastSeenMarkers (generateMarkerId m) ⟨m, now⟩ h

theorem filter_not_mem_self [DecidableEq α] (l : List α) :
    l.filter (fun a => decide (a ∉ l)) = [] := by
  rw [List.filter_eq_nil_iff]
  intro a ha
  simp [ha]

theorem urlStep_prev (parseURL : String → Option URLo)
    (fromUrl : String → Except ε (List ARArtifact)) (windowOrigin : String)
    (request : PerceptionStateChangeRequest) (st : MeaningMakerState) :
    (urlStep parseURL fromUrl windowOrigin request st).prevPerceptionResults =
      st.prevPerceptionResults :=
  (urlStep_frame parseURL fromUrl windowOrigin request st).1

/-- C6: the aggregator's image query is exactly the concatenation, in
store-registration order, of each store's `getDetectableImages` result, a
capability-less store contributing `[]` (never an error) and no de-duplication
applied; the artifact query obeys the same concatenation rule. -/
theorem aggregator_concatenates (ε : Type) (stores : List (ArtifactStore ε))
    (request : PerceptionState)
    (di : ArtifactStore ε → List DetectableImage)
    (ar : ArtifactStore ε → List PerceptionResult)
    (hdi : ∀ s ∈ stores, imagesContribution ε request s = .ok (di s))
    (har : ∀ s ∈ stores, artifactsContribution ε request s = .ok (ar s)) :
    (ArtifactDealer.mk stores).predictPerceptionTargets request =
        .ok (flat (stores.map di)) ∧
    (ArtifactDealer.mk stores).getPerceptionResults request =
        .ok (flat (stores.map ar)) ∧
    (∀ s ∈ stores, s.getDetectableImages = none → di s = []) ∧
    (∀ s ∈ stores, s.findRelevantArtifacts = none → ar s = []) := by
  refine ⟨?_, ?_, ?_, ?_⟩
  · unfold ArtifactDealer.predictPerceptionTargets
    rw [promiseAll_ok ε _ di stores hdi]
  · unfold ArtifactDealer.getPerceptionResults
    rw [promiseAll_ok ε _ ar stores har]
  · intro s hs hnone
    have h1 := hdi s hs
    have h2 : imagesContribution ε request s = .ok [] := by
      simp [imagesContribution, hnone]
    rw [h2] at h1
    exact (Except.ok.inj h1).symm
  · intro s hs hnone
    have h1 := har s hs
    have h2 : artifactsContribution ε request s = .ok [] := by
      simp [artifactsContribution, hnone]
    rw [h2] at h1
    exact (Except.ok.inj h1).symm

/-- C6 witness: two capability-bearing copies of a store around a
capability-less one: results are concatenated in order, duplicates preserved,
the capability-less store contributes nothing. -/
theorem aggregator_concatenates_witness :
    (ArtifactDealer.mk (ε := Unit)
        [⟨some (fun _ => .ok [10]), some (fun _ => .ok [7])⟩, ⟨none, none⟩,
          ⟨some (fun _ => .ok [10]), some (fun _ => .ok [7])⟩]).predictPerceptionTargets
        ⟨[], none, []⟩ = .ok [10, 10] ∧
    (ArtifactDealer.mk (ε := Unit)
        [⟨some (fun _ => .ok [10]), some (fun _ => .ok [7])⟩, ⟨none, none⟩,
          ⟨some (fun _ => .ok [10]), some (fun _ => .ok [7])⟩]).getPerceptionResults
        ⟨[], none, []⟩ = .ok [7, 7] := by
  have h := aggregator_concatenates Unit
    [⟨some (fun _ => .ok [10]), some (fun _ => .ok [7])⟩, ⟨none, none⟩,
      ⟨some (fun _ => .ok [10]), some (fun _ => .ok [7])⟩]
    ⟨[], none, []⟩
    (fun s => match s.getDetectableImages with | none => [] | some _ => [10])
    (fun s => match s.findRelevantArtifacts with | none => [] | some _ => [7])
    (by
      intro s hs
      simp only [List.mem_cons, List.not_mem_nil, or_false] at hs
      rcases hs with rfl | rfl | rfl <;> rfl)
    (by
      intro s hs
      simp only [List.mem_cons, List.not_mem_nil, or_false] at hs
      rcases hs with rfl | rfl | rfl <;> rfl)
  exact ⟨h.1, h.2.1⟩

/-- C3: a store whose `findRelevantArtifacts` rejects is not caught: the
aggregation (`getPerceptionResults`) cannot resolve, the enclosing
`updatePerceptionState` promise does not resolve either (the tick yields no
found/lost output), and `prevPerceptionResults` is left exactly as it was, so
the next successful tick diffs against the last committed set. -/
theorem store_rejection_aborts_tick (ε : Type) (d : ArtifactDealer ε)
    (parseURL : String → Option URLo) (fromUrl : String → Except ε (List ARArtifact))
    (windowOrigin : String) (now : Int) (st : MeaningMakerState)
    (request : PerceptionStateChangeRequest) (s : ArtifactStore ε) (e : ε)
    (hs : s ∈ d.artstores)
    (hf : artifactsContribution ε (queriedState now st request) s = .error e) :
    (∀ rs, d.getPerceptionResults (queriedState now st request) ≠ .ok rs) ∧
    (∀ resp, (MeaningMaker.updatePerceptionState d parseURL fromUrl windowOrigin now
        st request).1 ≠ .ok resp) ∧
    (MeaningMaker.updatePerceptionState d parseURL fromUrl windowOrigin now st
        request).2.prevPerceptionResults = st.prevPerceptionResults := by
  have hagg : ∀ rs, d.getPerceptionResults (queriedState now st request) ≠ .ok rs := by
    intro rs hok
    unfold ArtifactDealer.getPerceptionResults at hok
    cases hall : promiseAll ε (artifactsContribution ε (queriedState now st request))
        d.artstores with
    | error e0 =>
      rw [hall] at hok
      exact Except.noConfusion hok
    | ok rss => exact promiseAll_error ε _ d.artstores s e hs hf rss hall
  refine ⟨hagg, ?_, ?_⟩
  · cases hres : d.getPerceptionResults (queriedState now st request) with
    | ok rs => exact absurd hres (hagg rs)
    | error e0 =>
      intro resp
      simp only [MeaningMaker.updatePerceptionState, hres]
      exact fun h => Except.noConfusion h
  · cases hres : d.getPerceptionResults (queriedState now st request) with
    | ok rs => exact absurd hres (hagg rs)
    | error e0 =>
      simp only [MeaningMaker.updatePerceptionState, hres]
      exact (urlStep_frame parseURL fromUrl windowOrigin request _).1

/-- C3 witness: a single rejecting store aborts a concrete tick and leaves the
previous-results set untouched. -/
theorem store_rejection_aborts_tick_witness :
    (MeaningMaker.updatePerceptionState (ε := Unit)
        ⟨[⟨none, some (fun _ => .error ())⟩]⟩ (fun _ => none) (fun _ => .ok []) ""
        0 initialState ⟨[⟨"qr", "X"⟩], none, [], none⟩).2.prevPerceptionResults =
      initialState.prevPerceptionResults :=
  (store_rejection_aborts_tick Unit ⟨[⟨none, some (fun _ => .error ())⟩]⟩
    (fun _ => none) (fun _ => .ok []) "" 0 initialState
    ⟨[⟨"qr", "X"⟩], none, [], none⟩ ⟨none, some (fun _ => .error ())⟩ ()
    (List.mem_cons_self _ _) rfl).2.2

/-- C4: when two consecutive calls query the same believed-present state
against the same (pure) stores — so the store answers are the same object
references — the second call returns empty `found` and empty `lost`. -/
theorem unchanged_state_empty_delta (ε : Type) (d : ArtifactDealer ε)
    (parseURL : String → Option URLo) (fromUrl : String → Except ε (List ARArtifact))
    (windowOrigin : String) (now1 now2 : Int) (st : MeaningMakerState)
    (request1 request2 : PerceptionStateChangeRequest)
    (nearby : List PerceptionResult)
    (h1 : d.getPerceptionResults (queriedState now1 st request1) = .ok nearby)
    (hsame :
      queriedState now2
          (MeaningMaker.updatePerceptionState d parseURL fromUrl windowOrigin now1 st
            request1).2 request2 =
        queriedState now1 st request1) :
    ∀ resp2,
      (MeaningMaker.updatePerceptionState d parseURL fromUrl windowOrigin now2
          (MeaningMaker.updatePerceptionState d parseURL fromUrl windowOrigin now1 st
            request1).2 request2).1 = .ok resp2 →
      resp2.found = [] ∧ resp2.lost = [] := by
  intro resp2 hok
  have hprev :
      (MeaningMaker.updatePerceptionState d parseURL fromUrl windowOrigin now1 st
        request1).2.prevPerceptionResults = jsSet nearby := by
    cases hpred : d.predictPerceptionTargets request1.toPerceptionState with
    | error e =>
      simp only [MeaningMaker.updatePerceptionState, h1, hpred]
    | ok di =>
      simp only [MeaningMaker.updatePerceptionState, h1, hpred]
  set st1 := (MeaningMaker.updatePerceptionState d parseURL fromUrl windowOrigin
    now1 st request1).2 with hst1def
  have hd2 : d.getPerceptionResults (queriedState now2 st1 request2) = .ok nearby := by
    rw [hsame]; exact h1
  cases hpred2 : d.predictPerceptionTargets request2.toPerceptionState with
  | error e =>
    simp only [MeaningMaker.updatePerceptionState, hd2, hpred2] at hok
    exact Except.noConfusion hok
  | ok di2 =>
    simp only [MeaningMaker.updatePerceptionState, hd2, hpred2,
      Except.ok.injEq] at hok
    subst hok
    constructor
    · simp only [urlStep_prev, hprev]
      exact filter_not_mem_self (jsSet nearby)
    · simp only [urlStep_prev, hprev]
      exact filter_not_mem_self (jsSet nearby)

/-- C4 witness: two identical ticks at the same instant against a constant
store; the second tick's delta is empty. -/
theorem unchanged_state_empty_delta_witness :
    (PerceptionStateChangeResponse.mk [] [] [] []).found = [] ∧
    (PerceptionStateChangeResponse.mk [] [] [] []).lost = [] :=
  unchanged_state_empty_delta Unit ⟨[⟨none, some (fun _ => .ok [7])⟩]⟩
    (fun _ => none) (fun _ => .ok []) "" 0 0 initialState
    ⟨[⟨"qr", "X"⟩], none, [], none⟩ ⟨[⟨"qr", "X"⟩], none, [], none⟩ [7] rfl rfl
    (PerceptionStateChangeResponse.mk [] [] [] []) rfl

/-- C1 (code bug): with the tracker already holding `img1` after a first call,
an identical second call at the same instant still reports the image in
`newTargets` (the claim and spec say `newTargets = []`): the image new-target
check on `meaning-maker.ts` line 153 consults `lastSeenMarkers` instead of
`lastSeenImages`, so images are re-reported as new on every tick. -/
theorem second_call_image_still_new :
    (MeaningMaker.updatePerceptionState (ε := Unit) ⟨[]⟩ (fun _ => none)
        (fun _ => .ok []) "" 0
        (MeaningMaker.updatePerceptionState (ε := Unit) ⟨[]⟩ (fun _ => none)
          (fun _ => .ok []) "" 0 initialState
          ⟨[], none, [⟨"img1"⟩], none⟩).2
        ⟨[], none, [⟨"img1"⟩], none⟩).1 =
      .ok ⟨[], [], [Target.image ⟨"img1"⟩], []⟩ := by
  rfl

/-- C2: the expiry sweep runs after the batch's timestamps are refreshed, so
(with a non-negative buffer) every marker/image of the current tick's input
keeps a presence entry stamped `now` — even with `bufferWindow = 0` — while an
identity unseen for longer than the buffer and absent from the batch loses its
entry and does not occur in the believed-present state used for the tick's
artifact query. -/
theorem presence_refresh_and_expiry (now : Int) (st : MeaningMakerState)
    (request : PerceptionStateChangeRequest)
    (hbuf : 0 ≤ st.lastSeenTimeBuffer)
    (hmwf : markersWF st.lastSeenMarkers) (hiwf : imagesWF st.lastSeenImages) :
    (∀ m ∈ request.markers,
      ∃ sm, mapGet? (postSweep now st request).lastSeenMarkers
          (generateMarkerId m) = some sm ∧ sm.timestamp = now) ∧
    (∀ i ∈ request.images,
      ∃ si, mapGet? (postSweep now st request).lastSeenImages i.id = some si ∧
        si.timestamp = now) ∧
    (∀ k sm, mapGet? st.lastSeenMarkers k = some sm →
      now - sm.timestamp > st.lastSeenTimeBuffer →
      (∀ m ∈ request.markers, generateMarkerId m ≠ k) →
      mapHas (postSweep now st request).lastSeenMarkers k = false ∧
      ∀ m' ∈ (queriedState now st request).markers, generateMarkerId m' ≠ k) ∧
    (∀ k si, mapGet? st.lastSeenImages k = some si →
      now - si.timestamp > st.lastSeenTimeBuffer →
      (∀ i ∈ request.images, i.id ≠ k) →
      mapHas (postSweep now st request).lastSeenImages k = false ∧
      ∀ i' ∈ (queriedState now st request).images, i'.id ≠ k) := by
  have hupdM : (updateLastSeen now st request).lastSeenMarkers =
      (request.markers.foldl (markerStep now)
        ⟨[], st.lastSeenMarkers, st.lastSeenImages⟩).lastSeenMarkers := by
    unfold updateLastSeen
    exact imageFold_markers now request.images _
  refine ⟨?_, ?_, ?_, ?_⟩
  · intro m hm
    obtain ⟨sm, hget, hts⟩ := markerFold_get_fresh now request.markers
      ⟨[], st.lastSeenMarkers, st.lastSeenImages⟩ m hm
    refine ⟨sm, ?_, hts⟩
    simp only [postSweep, expireSweep]
    apply mapGet?_filter_eq_some
    · rw [hupdM]; exact hget
    · have hno : ¬ (now - sm.timestamp > st.lastSeenTimeBuffer) := by
        rw [hts]; omega
      simp [hno]
  · intro i hi
    obtain ⟨si, hget, hts⟩ := imageFold_get_fresh now request.images
      (request.markers.foldl (markerStep now)
        ⟨[], st.lastSeenMarkers, st.lastSeenImages⟩) i hi
    refine ⟨si, ?_, hts⟩
    simp only [postSweep, expireSweep]
    apply mapGet?_filter_eq_some
    · exact hget
    · have hno : ¬ (now - si.timestamp > st.lastSeenTimeBuffer) := by
        rw [hts]; omega
      simp [hno]
  · intro k sm hget hstale hnotin
    have huntouched : mapGet? (updateLastSeen now st request).lastSeenMarkers k =
        some sm := by
      rw [hupdM, markerFold_get_untouched now request.markers _ k hnotin]
      exact hget
    have hnd : (mapKeys (updateLastSeen now st request).lastSeenMarkers).Nodup := by
      rw [hupdM]
      exact markerFold_keys_nodup now request.markers _ hmwf.1
    have hnone : mapGet? (postSweep now st request).lastSeenMarkers k = none := by
      simp only [postSweep, expireSweep]
      exact mapGet?_filter_eq_none _ k sm _ hnd huntouched (by simp [hstale])
    refine ⟨by simp [mapHas, hnone], ?_⟩
    intro m' hm' hkm'
    simp only [queriedState, believedPresentState, List.mem_map] at hm'
    obtain ⟨p, hp, hpm⟩ := hm'
    have hwf := postSweep_markersWF now st request hmwf
    have hpk : p.1 = k := by
      rw [← hwf.2 p hp, hpm, hkm']
    have : mapHas (postSweep now st request).lastSeenMarkers k = true := by
      apply mapHas_of_mem_keys
      rw [← hpk]
      exact List.mem_map.mpr ⟨p, hp, rfl⟩
    simp [mapHas, hnone] at this
  · intro k si hget hstale hnotin
    have hM : (request.markers.foldl (markerStep now)
        ⟨[], st.lastSeenMarkers, st.lastSeenImages⟩).lastSeenImages =
        st.lastSeenImages :=
      markerFold_images now request.markers _
    have huntouched : mapGet? (updateLastSeen now st request).lastSeenImages k =
        some si := by
      unfold updateLastSeen
      rw [imageFold_get_untouched now request.images _ k hnotin, hM]
      exact hget
    have hnd : (mapKeys (updateLastSeen now st request).lastSeenImages).Nodup := by
      unfold updateLastSeen
      refine (imageFold_wf now request.images _ ?_).1
      rw [hM]
      exact hiwf
    have hnone : mapGet? (postSweep now st request).lastSeenImages k = none := by
      simp only [postSweep, expireSweep]
      exact mapGet?_filter_eq_none _ k si _ hnd huntouched (by simp [hstale])
    refine ⟨by simp [mapHas, hnone], ?_⟩
    intro i' hi' hki'
    simp only [queriedState, believedPresentState, List.mem_map] at hi'
    obtain ⟨p, hp, hpi⟩ := hi'
    have hwf := postSweep_imagesWF now st request hiwf
    have hpk : p.1 = k := by
      rw [← hwf.2 p hp, hpi, hki']
    have : mapHas (postSweep now st request).lastSeenImages k = true := by
      apply mapHas_of_mem_keys
      rw [← hpk]
      exact List.mem_map.mpr ⟨p, hp, rfl⟩
    simp [mapHas, hnone] at this

/-- C2 witness: at `now = 0` with the default 2000 ms buffer, a marker and an
image seen this tick survive the sweep stamped `0`, while a marker entry last
seen at `-3000` (and not in the batch) is swept and absent from the believed
state. -/
theorem presence_refresh_and_expiry_witness :
    (∃ sm, mapGet? (postSweep 0
        { initialState with
            lastSeenMarkers := [("qr__OLD", ⟨⟨"qr", "OLD"⟩, -3000⟩)] }
        ⟨[⟨"qr", "X"⟩], none, [⟨"imgA"⟩], none⟩).lastSeenMarkers
        (generateMarkerId ⟨"qr", "X"⟩) = some sm ∧ sm.timestamp = 0) ∧
    mapHas (postSweep 0
        { initialState with
            lastSeenMarkers := [("qr__OLD", ⟨⟨"qr", "OLD"⟩, -3000⟩)] }
        ⟨[⟨"qr", "X"⟩], none, [⟨"imgA"⟩], none⟩).lastSeenMarkers "qr__OLD" =
      false := by
  have h := presence_refresh_and_expiry 0
    { initialState with
        lastSeenMarkers := [("qr__OLD", ⟨⟨"qr", "OLD"⟩, -3000⟩)] }
    ⟨[⟨"qr", "X"⟩], none, [⟨"imgA"⟩], none⟩ (by decide) ⟨by decide, by decide⟩
    ⟨by decide, by decide⟩
  refine ⟨h.1 ⟨"qr", "X"⟩ (by simp), ?_⟩
  exact (h.2.2.1 "qr__OLD" ⟨⟨"qr", "OLD"⟩, -3000⟩ (by decide) (by decide)
    (by decide)).1

/-- C10: a request listing the same marker identity several times reports it in
`newTargets` at most once, and afterwards the tracker holds exactly one entry
for that key, stamped `now` (later occurrences only refresh the entry). -/
theorem duplicate_markers_reported_once (now : Int) (st : MeaningMakerState)
    (request : PerceptionStateChangeRequest) (k : String)
    (hbuf : 0 ≤ st.lastSeenTimeBuffer)
    (hnd : (mapKeys st.lastSeenMarkers).Nodup) :
    (postSweep now st request).newTargets.countP (isMarkerKey k) ≤ 1 ∧
    ((∃ m ∈ request.markers, generateMarkerId m = k) →
      (postSweep now st request).lastSeenMarkers.countP (fun p => p.1 == k) = 1 ∧
      ∃ sm, mapGet? (postSweep now st request).lastSeenMarkers k = some sm ∧
        sm.timestamp = now) := by
  constructor
  · have hstep : (postSweep now st request).newTargets =
        (updateLastSeen now st request).newTargets := rfl
    rw [hstep]
    unfold updateLastSeen
    rw [imageFold_countP]
    have h := markerFold_countP now request.markers
      ⟨[], st.lastSeenMarkers, st.lastSeenImages⟩ k
    simp only [List.countP_nil, Nat.zero_add] at h
    by_cases hh : mapHas st.lastSeenMarkers k = true
    · simp only [hh, if_true] at h
      omega
    · simp only [Bool.not_eq_true] at hh
      simp only [hh, Bool.false_eq_true, if_false] at h
      omega
  · rintro ⟨m, hm, rfl⟩
    obtain ⟨sm, hget, hts⟩ := markerFold_get_fresh now request.markers
      ⟨[], st.lastSeenMarkers, st.lastSeenImages⟩ m hm
    have hupdM : (updateLastSeen now st request).lastSeenMarkers =
        (request.markers.foldl (markerStep now)
          ⟨[], st.lastSeenMarkers, st.lastSeenImages⟩).lastSeenMarkers := by
      unfold updateLastSeen
      exact imageFold_markers now request.images _
    have hsurv : mapGet? (postSweep now st request).lastSeenMarkers
        (generateMarkerId m) = some sm := by
      simp only [postSweep, expireSweep]
      apply mapGet?_filter_eq_some
      · rw [hupdM]; exact hget
      · have hno : ¬ (now - sm.timestamp > st.lastSeenTimeBuffer) := by
          rw [hts]; omega
        simp [hno]
    refine ⟨?_, sm, hsurv, hts⟩
    apply countP_key_eq_one
    · simp only [postSweep, expireSweep]
      apply mapKeys_nodup_filter
      rw [hupdM]
      exact markerFold_keys_nodup now request.markers _ hnd
    · simp [mapHas, hsurv]

/-- C10 witness: a request repeating `{qr, X}` twice yields at most one
new-target report for `qr__X` and exactly one tracker entry afterwards. -/
theorem duplicate_markers_reported_once_witness :
    (postSweep 0 initialState
        ⟨[⟨"qr", "X"⟩, ⟨"qr", "X"⟩], none, [], none⟩).newTargets.countP
      (isMarkerKey "qr__X") ≤ 1 ∧
    (postSweep 0 initialState
        ⟨[⟨"qr", "X"⟩, ⟨"qr", "X"⟩], none, [], none⟩).lastSeenMarkers.countP
      (fun p => p.1 == "qr__X") = 1 := by
  have h := duplicate_markers_reported_once 0 initialState
    ⟨[⟨"qr", "X"⟩, ⟨"qr", "X"⟩], none, [], none⟩ "qr__X" (by decide) (by decide)
  refine ⟨h.1, ?_⟩
  exact (h.2 ⟨⟨"qr", "X"⟩, by simp, by decide⟩).1

end PerceptionToolkit
